import Mathlib

/-!
Shallow embedding of the AG-pattern generation pipeline
(`generators/jitter_grid_generator.py`, `generators/sunflower_generator.py`,
`generators/poisson_generator.py`) together with theorems settling the
specification claims about it.

Conventions of the embedding:
* machine floats are modelled exactly: coordinates that the program computes
  with field operations and comparisons only are modelled in `ℚ`; values that
  the program obtains from `sqrt`/`cos`/`sin`/`π` are modelled in `ℝ`;
* the process-wide random source (`np.random.*`) is modelled as an explicit
  oracle argument: every random draw of the program becomes one entry of an
  arbitrary input stream, so theorems quantify over all possible draws;
* third-party geometry calls (`scipy.spatial.Voronoi`, `gdstk.boolean`) are
  modelled at their interface: the Voronoi builder is an abstract argument
  producing the diagram record the code reads (`vertices`, `regions`,
  `point_region`, `points`), and rectangle clipping is Sutherland–Hodgman
  polygon clipping, the textbook polygon-boolean intersection with a
  rectangle.
-/

/-- A planar point with exact coordinates (`np.array([x, y])` in the source). -/
abbrev Pt : Type := ℚ × ℚ

/-- Squared Euclidean distance.  The source compares
`np.linalg.norm(q - p) < radius`; for nonnegative radius this is equivalent to
comparing `dist2 q p` with `radius ^ 2`, which avoids the square root. -/
def dist2 (p q : Pt) : ℚ := (p.1 - q.1) ^ 2 + (p.2 - q.2) ^ 2

/-! ### Poisson-disc sampling (`poisson_generator.py`, `_generate_poisson_disc_points`)

The acceleration grid of the source has cell size `cellsize = radius/√2` and a
point `p` is filed under `int(p[0]/cellsize), int(p[1]/cellsize)`.  For
`x, r : ℚ` the real number `x·√2/r` is never an integer unless `x = 0`, and
`⌊x·√2/r⌋ = Nat.sqrt ⌊2·x²/r²⌋` for `x ≥ 0`, which the definition below uses to
keep the index computable over `ℚ`. -/

/-- `gridIdx x r` is `int(x / (r/√2))`, the acceleration-grid index of
coordinate `x ≥ 0` for disc radius `r > 0` in the source: the greatest `n`
with `n²·r² ≤ 2·x²`, which equals `⌊x·√2/r⌋`. -/
def gridIdx (x r : ℚ) : ℕ :=
  Nat.findGreatest (fun n => (n : ℚ) ^ 2 * r ^ 2 ≤ 2 * x ^ 2) (2 * x ^ 2 / r ^ 2 : ℚ).floor.toNat

/-- Grid dimension `int(np.ceil(width / cellsize))` of the source.  For
`w, r : ℚ` with `0 < w` the real `w·√2/r` is irrational, so its ceiling equals
its floor plus one. -/
def gridDim (w r : ℚ) : ℕ := gridIdx w r + 1

/-- The acceleration-grid cell of a point. -/
def cellOf (r : ℚ) (p : Pt) : ℕ × ℕ := (gridIdx p.1 r, gridIdx p.2 r)

/-- Index window `range(max(0, g - 2), min(lim, g + 3))` scanned by the
neighbour check of the source (truncated `ℕ` subtraction is `max 0`). -/
def idxWindow (g lim : ℕ) : List ℕ := List.range' (g - 2) (min lim (g + 3) - (g - 2))

/-- Mutable state of `_generate_poisson_disc_points`: the acceleration grid
(`grid`), the active list (`process_list`) and the accepted points
(`points`). -/
structure PoissonState : Type where
  grid : ℕ × ℕ → Option Pt
  act : List Pt
  pts : List Pt

/-- The `is_valid` scan of the source: no accepted point filed in the 5×5
block of grid cells around the candidate lies strictly closer than `radius`. -/
def neighborsOk (grid : ℕ × ℕ → Option Pt) (gw gh : ℕ) (r : ℚ) (c : Pt) : Bool :=
  (idxWindow (gridIdx c.1 r) gw).all fun i =>
    (idxWindow (gridIdx c.2 r) gh).all fun j =>
      match grid (i, j) with
      | none => true
      | some q => decide (r ^ 2 ≤ dist2 q c)

/-- The boundary test `0 <= x < width and 0 <= y < height` of the source. -/
def insideB (w h : ℚ) (c : Pt) : Bool :=
  decide (0 ≤ c.1 ∧ c.1 < w ∧ 0 ≤ c.2 ∧ c.2 < h)

/-- Processing of one candidate point: if it lies inside the boundary and the
neighbour scan passes, it is appended to the active list and the accepted
list and filed in its grid cell; otherwise the state is unchanged. -/
def tryCand (w h r : ℚ) (gw gh : ℕ) (st : PoissonState) (c : Pt) : PoissonState :=
  if insideB w h c && neighborsOk st.grid gw gh r c then
    { grid := fun z => if z = cellOf r c then some c else st.grid z
      act := st.act ++ [c]
      pts := st.pts ++ [c] }
  else st

/-- The inner `for _ in range(k)` loop: each oracle entry `o` is the offset
`r·(cos θ, sin θ)` the source adds to the popped point (the list has length
`k` in the source; the theorems hold for any length). -/
def stepFrom (w h r : ℚ) (gw gh : ℕ) (st : PoissonState) (p : Pt) (offs : List Pt) :
    PoissonState :=
  offs.foldl (fun s o => tryCand w h r gw gh s (p.1 + o.1, p.2 + o.2)) st

/-- One iteration of the `while process_list` loop: pop the active point at
the oracle-chosen index (`np.random.randint(len(process_list))`, modelled as
`pi % length`) and attempt the candidate offsets. -/
def popStep (w h r : ℚ) (gw gh : ℕ) (st : PoissonState) (pi : ℕ) (offs : List Pt) :
    PoissonState :=
  if st.act.isEmpty then st
  else
    stepFrom w h r gw gh { st with act := st.act.eraseIdx (pi % st.act.length) }
      (st.act.getD (pi % st.act.length) (0, 0)) offs

/-- The `while process_list` loop, fuelled.  `oracle t` supplies the pop index
and the candidate offsets of iteration `t`. -/
def runPoisson (w h r : ℚ) (oracle : ℕ → ℕ × List Pt) : ℕ → ℕ → PoissonState → PoissonState
  | 0, _, st => st
  | fuel + 1, t, st =>
    if st.act.isEmpty then st
    else runPoisson w h r oracle fuel (t + 1) (popStep w h r (gridDim w r) (gridDim h r) st (oracle t).1 (oracle t).2)

/-- The state after seeding with the first uniformly random point `p0`. -/
def initState (r : ℚ) (p0 : Pt) : PoissonState :=
  { grid := fun z => if z = cellOf r p0 then some p0 else none
    act := [p0]
    pts := [p0] }

example : idxWindow 0 2 = [0, 1] := by decide
example : idxWindow 7 4 = [] := by decide

/-- The invariant of Bridson's loop maintained by the source: every accepted
point is inside the boundary, is filed in the acceleration grid at its own
cell, the grid holds only accepted points at their cells, and accepted points
are pairwise at squared distance at least `r²`. -/
def PInv (w h r : ℚ) (st : PoissonState) : Prop :=
  (∀ p ∈ st.pts, 0 ≤ p.1 ∧ p.1 < w ∧ 0 ≤ p.2 ∧ p.2 < h) ∧
  (∀ p ∈ st.pts, st.grid (cellOf r p) = some p) ∧
  (∀ z q, st.grid z = some q → q ∈ st.pts ∧ z = cellOf r q) ∧
  st.pts.Pairwise (fun p q => r ^ 2 ≤ dist2 p q)

/-- `P 0` always holds for the `gridIdx` search predicate. -/
lemma gridIdx_spec_le (x r : ℚ) : (gridIdx x r : ℚ) ^ 2 * r ^ 2 ≤ 2 * x ^ 2 := by
  have h0 : ((0 : ℕ) : ℚ) ^ 2 * r ^ 2 ≤ 2 * x ^ 2 := by
    simpa using (by positivity : (0 : ℚ) ≤ 2 * x ^ 2)
  exact Nat.findGreatest_spec (P := fun n => (n : ℚ) ^ 2 * r ^ 2 ≤ 2 * x ^ 2)
    (Nat.zero_le _) h0

lemma gridIdx_spec_lt (x r : ℚ) (_hx : 0 ≤ x) (hr : 0 < r) :
    2 * x ^ 2 < ((gridIdx x r : ℚ) + 1) ^ 2 * r ^ 2 := by
  set t : ℚ := 2 * x ^ 2 / r ^ 2 with ht
  have htnn : 0 ≤ t := by positivity
  have hb : ((⌊t⌋.toNat : ℚ)) = (⌊t⌋ : ℚ) := by
    norm_cast
    exact Int.toNat_of_nonneg (Int.le_floor.2 (by exact_mod_cast htnn))
  set b : ℕ := ⌊t⌋.toNat with hbdef
  set n : ℕ := gridIdx x r with hn
  have hrsq : (0 : ℚ) < r ^ 2 := by positivity
  have hEq : 2 * x ^ 2 = t * r ^ 2 := by field_simp [ht]
  by_cases hcase : n + 1 ≤ b
  · have hgr := Nat.findGreatest_is_greatest (P := fun m => (m : ℚ) ^ 2 * r ^ 2 ≤ 2 * x ^ 2)
      (n := b) (k := n + 1) (Nat.lt_succ_self n) hcase
    have hgr' : ¬ (((n + 1 : ℕ) : ℚ) ^ 2 * r ^ 2 ≤ 2 * x ^ 2) := hgr
    push_neg at hgr'
    have : 2 * x ^ 2 < (((n : ℚ) + 1)) ^ 2 * r ^ 2 := by push_cast at hgr' ⊢; linarith
    exact this
  · -- here `n = b`, and `t < b + 1 ≤ (b + 1)²`
    have hnb : n ≤ b := Nat.findGreatest_le b
    have hnb' : n = b := by omega
    have htlt : t < (b : ℚ) + 1 := by
      rw [hb]
      exact Int.lt_floor_add_one t
    have hble : ((b : ℚ) + 1) ≤ ((b : ℚ) + 1) ^ 2 := by
      have h1 : (0 : ℚ) ≤ (b : ℚ) := by positivity
      nlinarith
    rw [hEq, hnb']
    have : t < ((b : ℚ) + 1) ^ 2 := lt_of_lt_of_le htlt hble
    nlinarith

/-- Real-number characterisation: `gridIdx x r = ⌊x·√2/r⌋`. -/
lemma gridIdx_real_le (x r : ℚ) (hx : 0 ≤ x) (hr : 0 < r) :
    (gridIdx x r : ℝ) * (r : ℝ) ≤ (x : ℝ) * Real.sqrt 2 := by
  have h := gridIdx_spec_le x r
  have hR : ((gridIdx x r : ℝ) * (r : ℝ)) ^ 2 ≤ ((x : ℝ) * Real.sqrt 2) ^ 2 := by
    have h2 : Real.sqrt 2 ^ 2 = 2 := Real.sq_sqrt (by norm_num)
    have hq : ((gridIdx x r : ℚ) ^ 2 * r ^ 2 : ℚ) ≤ (2 * x ^ 2 : ℚ) := h
    have hq' : ((gridIdx x r : ℝ)) ^ 2 * (r : ℝ) ^ 2 ≤ 2 * (x : ℝ) ^ 2 := by
      exact_mod_cast hq
    calc ((gridIdx x r : ℝ) * (r : ℝ)) ^ 2 = (gridIdx x r : ℝ) ^ 2 * (r : ℝ) ^ 2 := by ring
    _ ≤ 2 * (x : ℝ) ^ 2 := hq'
    _ = ((x : ℝ) * Real.sqrt 2) ^ 2 := by rw [mul_pow, h2]; ring
  have hnn1 : (0 : ℝ) ≤ (gridIdx x r : ℝ) * (r : ℝ) := by positivity
  have hnn2 : (0 : ℝ) ≤ (x : ℝ) * Real.sqrt 2 := by positivity
  nlinarith [hR, hnn1, hnn2]

lemma gridIdx_real_lt (x r : ℚ) (hx : 0 ≤ x) (hr : 0 < r) :
    (x : ℝ) * Real.sqrt 2 < ((gridIdx x r : ℝ) + 1) * (r : ℝ) := by
  have h := gridIdx_spec_lt x r hx hr
  have h2 : Real.sqrt 2 ^ 2 = 2 := Real.sq_sqrt (by norm_num)
  have hq' : 2 * (x : ℝ) ^ 2 < ((gridIdx x r : ℝ) + 1) ^ 2 * (r : ℝ) ^ 2 := by
    exact_mod_cast h
  have hR : ((x : ℝ) * Real.sqrt 2) ^ 2 < (((gridIdx x r : ℝ) + 1) * (r : ℝ)) ^ 2 := by
    calc ((x : ℝ) * Real.sqrt 2) ^ 2 = 2 * (x : ℝ) ^ 2 := by rw [mul_pow, h2]; ring
    _ < ((gridIdx x r : ℝ) + 1) ^ 2 * (r : ℝ) ^ 2 := hq'
    _ = (((gridIdx x r : ℝ) + 1) * (r : ℝ)) ^ 2 := by ring
  have hnn2 : (0 : ℝ) ≤ (x : ℝ) * Real.sqrt 2 := by positivity
  have hpos : (0 : ℝ) < ((gridIdx x r : ℝ) + 1) * (r : ℝ) := by positivity
  nlinarith [hR, hnn2, hpos]

/-- Two coordinates filed in the same grid cell differ by less than `r/√2`:
their squared difference is below `r²/2`. -/
lemma sameCell_close {x₁ x₂ r : ℚ} (hr : 0 < r) (h1 : 0 ≤ x₁) (h2 : 0 ≤ x₂)
    (he : gridIdx x₁ r = gridIdx x₂ r) : (x₁ - x₂) ^ 2 < r ^ 2 / 2 := by
  have a1 := gridIdx_real_le x₁ r h1 hr
  have b1 := gridIdx_real_lt x₁ r h1 hr
  have a2 := gridIdx_real_le x₂ r h2 hr
  have b2 := gridIdx_real_lt x₂ r h2 hr
  rw [he] at a1 b1
  have hrR : (0 : ℝ) < (r : ℝ) := by exact_mod_cast hr
  have hs2 : Real.sqrt 2 ^ 2 = 2 := Real.sq_sqrt (by norm_num)
  have hs2pos : (0 : ℝ) < Real.sqrt 2 := Real.sqrt_pos.2 (by norm_num)
  -- |x₁√2 - x₂√2| < r
  have hud : (x₁ : ℝ) * Real.sqrt 2 - (x₂ : ℝ) * Real.sqrt 2 < (r : ℝ) := by nlinarith
  have hud' : (x₂ : ℝ) * Real.sqrt 2 - (x₁ : ℝ) * Real.sqrt 2 < (r : ℝ) := by nlinarith
  have hgoal : ((x₁ : ℝ) - (x₂ : ℝ)) ^ 2 < (r : ℝ) ^ 2 / 2 := by nlinarith
  have : ((x₁ - x₂ : ℚ) : ℝ) ^ 2 < ((r ^ 2 / 2 : ℚ) : ℝ) := by push_cast; linarith [hgoal]
  exact_mod_cast this

/-- Two coordinates whose squared difference is below `r²` are filed at most
two grid cells apart: this is what makes the 5×5 scan of the source
sufficient. -/
lemma close_window {x₁ x₂ r : ℚ} (hr : 0 < r) (h1 : 0 ≤ x₁) (h2 : 0 ≤ x₂)
    (hc : (x₁ - x₂) ^ 2 < r ^ 2) : gridIdx x₁ r ≤ gridIdx x₂ r + 2 := by
  have a1 := gridIdx_real_le x₁ r h1 hr
  have b2 := gridIdx_real_lt x₂ r h2 hr
  have hrR : (0 : ℝ) < (r : ℝ) := by exact_mod_cast hr
  have hcR : ((x₁ : ℝ) - (x₂ : ℝ)) ^ 2 < (r : ℝ) ^ 2 := by
    have : ((x₁ - x₂ : ℚ) : ℝ) ^ 2 < ((r ^ 2 : ℚ) : ℝ) := by exact_mod_cast hc
    push_cast at this; linarith
  have hd : (x₁ : ℝ) - (x₂ : ℝ) < (r : ℝ) := by nlinarith
  have hs2 : Real.sqrt 2 ^ 2 = 2 := Real.sq_sqrt (by norm_num)
  have hs2pos : (0 : ℝ) < Real.sqrt 2 := Real.sqrt_pos.2 (by norm_num)
  have hs2lt : Real.sqrt 2 < 2 := by nlinarith
  -- x₁√2 < x₂√2 + 2r < (gridIdx x₂ + 3)·r
  have key : (gridIdx x₁ r : ℝ) * (r : ℝ) < ((gridIdx x₂ r : ℝ) + 3) * (r : ℝ) := by
    nlinarith
  have : (gridIdx x₁ r : ℝ) < (gridIdx x₂ r : ℝ) + 3 := by
    have := (mul_lt_mul_right hrR).1 key
    linarith
  have hN : (gridIdx x₁ r : ℕ) < gridIdx x₂ r + 3 := by exact_mod_cast this
  omega

/-- A coordinate strictly below `w` is filed strictly below `gridDim w r`. -/
lemma gridIdx_lt_gridDim {x w r : ℚ} (hr : 0 < r) (hx : 0 ≤ x) (hw : x < w) :
    gridIdx x r < gridDim w r := by
  have hw0 : 0 ≤ w := le_of_lt (lt_of_le_of_lt hx hw)
  have a1 := gridIdx_real_le x r hx hr
  have b2 := gridIdx_real_lt w r hw0 hr
  have hrR : (0 : ℝ) < (r : ℝ) := by exact_mod_cast hr
  have hs2pos : (0 : ℝ) < Real.sqrt 2 := Real.sqrt_pos.2 (by norm_num)
  have hxw : (x : ℝ) < (w : ℝ) := by exact_mod_cast hw
  have key : (gridIdx x r : ℝ) * (r : ℝ) < ((gridIdx w r : ℝ) + 1) * (r : ℝ) := by
    nlinarith
  have : (gridIdx x r : ℝ) < (gridIdx w r : ℝ) + 1 := by
    have := (mul_lt_mul_right hrR).1 key
    linarith
  have hN : gridIdx x r < gridIdx w r + 1 := by exact_mod_cast this
  simpa [gridDim] using hN

/-- Unfolding of the neighbour scan: if it passes, every grid occupant in the
scanned 5×5 window is at squared distance at least `r²` from the candidate. -/
lemma neighborsOk_far {grid : ℕ × ℕ → Option Pt} {gw gh : ℕ} {r : ℚ} {c : Pt}
    (hok : neighborsOk grid gw gh r c = true) {i j : ℕ} {q : Pt}
    (hg : grid (i, j) = some q)
    (hi1 : gridIdx c.1 r ≤ i + 2) (hi2 : i < gw) (hi3 : i < gridIdx c.1 r + 3)
    (hj1 : gridIdx c.2 r ≤ j + 2) (hj2 : j < gh) (hj3 : j < gridIdx c.2 r + 3) :
    r ^ 2 ≤ dist2 q c := by
  have hmi : i ∈ idxWindow (gridIdx c.1 r) gw := by
    rw [idxWindow, List.mem_range'_1]
    omega
  have hmj : j ∈ idxWindow (gridIdx c.2 r) gh := by
    rw [idxWindow, List.mem_range'_1]
    omega
  rw [neighborsOk, List.all_eq_true] at hok
  have h1 := hok i hmi
  rw [List.all_eq_true] at h1
  have h2 := h1 j hmj
  rw [hg] at h2
  exact of_decide_eq_true h2

/-- Acceptance of a candidate preserves the Bridson invariant. -/
lemma tryCand_inv {w h r : ℚ} (hr : 0 < r) {st : PoissonState} {c : Pt}
    (hI : PInv w h r st) :
    PInv w h r (tryCand w h r (gridDim w r) (gridDim h r) st c) := by
  obtain ⟨hin, hfile, hgrid, hpair⟩ := hI
  rw [tryCand]
  by_cases hcond : (insideB w h c && neighborsOk st.grid (gridDim w r) (gridDim h r) r c) = true
  · rw [if_pos hcond]
    rw [Bool.and_eq_true] at hcond
    obtain ⟨hinside, hok⟩ := hcond
    rw [insideB, decide_eq_true_eq] at hinside
    obtain ⟨hc1, hc2, hc3, hc4⟩ := hinside
    -- every already accepted point is at squared distance ≥ r² from c
    have hfar : ∀ p ∈ st.pts, r ^ 2 ≤ dist2 p c := by
      intro p hp
      by_contra hlt
      push_neg at hlt
      obtain ⟨hp1, hp2, hp3, hp4⟩ := hin p hp
      have hd1 : (p.1 - c.1) ^ 2 < r ^ 2 := by
        have : (0 : ℚ) ≤ (p.2 - c.2) ^ 2 := sq_nonneg _
        rw [dist2] at hlt
        linarith
      have hd2 : (p.2 - c.2) ^ 2 < r ^ 2 := by
        have : (0 : ℚ) ≤ (p.1 - c.1) ^ 2 := sq_nonneg _
        rw [dist2] at hlt
        linarith
      have hw1 : gridIdx p.1 r ≤ gridIdx c.1 r + 2 := close_window hr hp1 hc1 hd1
      have hw1' : gridIdx c.1 r ≤ gridIdx p.1 r + 2 := by
        have := close_window hr hc1 hp1 (by nlinarith [hd1] : (c.1 - p.1) ^ 2 < r ^ 2)
        exact this
      have hw2 : gridIdx p.2 r ≤ gridIdx c.2 r + 2 := close_window hr hp3 hc3 hd2
      have hw2' : gridIdx c.2 r ≤ gridIdx p.2 r + 2 := by
        have := close_window hr hc3 hp3 (by nlinarith [hd2] : (c.2 - p.2) ^ 2 < r ^ 2)
        exact this
      have hb1 : gridIdx p.1 r < gridDim w r := gridIdx_lt_gridDim hr hp1 hp2
      have hb2 : gridIdx p.2 r < gridDim h r := gridIdx_lt_gridDim hr hp3 hp4
      have := neighborsOk_far hok (hfile p hp) (by omega) hb1 (by omega)
        (by omega) hb2 (by omega)
      linarith
    -- the candidate's own cell is empty
    have hempty : st.grid (cellOf r c) = none := by
      cases hcase : st.grid (cellOf r c) with
      | none => rfl
      | some q =>
        obtain ⟨hqmem, hqcell⟩ := hgrid _ _ hcase
        obtain ⟨hq1, hq2, hq3, hq4⟩ := hin q hqmem
        have hcell1 : gridIdx q.1 r = gridIdx c.1 r := by
          have : cellOf r q = cellOf r c := hqcell.symm
          exact congrArg Prod.fst this
        have hcell2 : gridIdx q.2 r = gridIdx c.2 r := by
          have : cellOf r q = cellOf r c := hqcell.symm
          exact congrArg Prod.snd this
        have hclose1 : (q.1 - c.1) ^ 2 < r ^ 2 / 2 := sameCell_close hr hq1 hc1 hcell1
        have hclose2 : (q.2 - c.2) ^ 2 < r ^ 2 / 2 := sameCell_close hr hq3 hc3 hcell2
        have : dist2 q c < r ^ 2 := by rw [dist2]; linarith
        have := hfar q hqmem
        linarith
    refine ⟨?_, ?_, ?_, ?_⟩
    · intro p hp
      rcases List.mem_append.1 hp with hp | hp
      · exact hin p hp
      · rw [List.mem_singleton] at hp
        subst hp
        exact ⟨hc1, hc2, hc3, hc4⟩
    · intro p hp
      rcases List.mem_append.1 hp with hp | hp
      · have hne : cellOf r p ≠ cellOf r c := by
          intro he
          rw [← he] at hempty
          rw [hfile p hp] at hempty
          exact Option.noConfusion hempty
        simpa [hne] using hfile p hp
      · rw [List.mem_singleton] at hp
        subst hp
        simp
    · intro z q hz
      by_cases hze : z = cellOf r c
      · subst hze
        simp only [if_pos rfl] at hz
        cases hz
        exact ⟨List.mem_append.2 (Or.inr (List.mem_singleton.2 rfl)), rfl⟩
      · simp only [if_neg hze] at hz
        obtain ⟨hm, hc⟩ := hgrid z q hz
        exact ⟨List.mem_append.2 (Or.inl hm), hc⟩
    · rw [List.pairwise_append]
      refine ⟨hpair, List.pairwise_singleton _ _, ?_⟩
      intro p hp q hq
      rw [List.mem_singleton] at hq
      subst hq
      exact hfar p hp
  · rw [if_neg hcond]
    exact ⟨hin, hfile, hgrid, hpair⟩

lemma stepFrom_inv {w h r : ℚ} (hr : 0 < r) {p : Pt} (offs : List Pt)
    {st : PoissonState} (hI : PInv w h r st) :
    PInv w h r (stepFrom w h r (gridDim w r) (gridDim h r) st p offs) := by
  induction offs generalizing st with
  | nil => exact hI
  | cons o rest ih =>
    rw [stepFrom, List.foldl_cons]
    exact ih (tryCand_inv hr hI)

lemma popStep_inv {w h r : ℚ} (hr : 0 < r) {st : PoissonState} {pi : ℕ} {offs : List Pt}
    (hI : PInv w h r st) :
    PInv w h r (popStep w h r (gridDim w r) (gridDim h r) st pi offs) := by
  rw [popStep]
  by_cases he : st.act.isEmpty
  · rw [if_pos he]; exact hI
  · rw [if_neg he]
    obtain ⟨hin, hfile, hgrid, hpair⟩ := hI
    exact stepFrom_inv hr offs ⟨hin, hfile, hgrid, hpair⟩

lemma runPoisson_inv {w h r : ℚ} (hr : 0 < r) {oracle : ℕ → ℕ × List Pt}
    (fuel t : ℕ) {st : PoissonState} (hI : PInv w h r st) :
    PInv w h r (runPoisson w h r oracle fuel t st) := by
  induction fuel generalizing t st with
  | zero => exact hI
  | succ fuel ih =>
    rw [runPoisson]
    by_cases he : st.act.isEmpty
    · rw [if_pos he]; exact hI
    · rw [if_neg he]
      exact ih _ (popStep_inv hr hI)

/-- Accepted points occupy pairwise distinct cells, so there are at most
`gridDim w r * gridDim h r` of them. -/
lemma pts_length_le {w h r : ℚ} (hr : 0 < r) {st : PoissonState} (hI : PInv w h r st) :
    st.pts.length ≤ gridDim w r * gridDim h r := by
  obtain ⟨hin, hfile, hgrid, hpair⟩ := hI
  have hnd : st.pts.Nodup := by
    refine hpair.imp ?_
    intro p q hle he
    subst he
    have : dist2 p p = 0 := by rw [dist2]; ring
    rw [this] at hle
    nlinarith
  have hcard : st.pts.toFinset.card = st.pts.length := List.toFinset_card_of_nodup hnd
  have hle : st.pts.toFinset.card ≤
      (Finset.range (gridDim w r) ×ˢ Finset.range (gridDim h r)).card := by
    apply Finset.card_le_card_of_injOn (cellOf r)
    · intro p hp
      rw [List.mem_toFinset] at hp
      obtain ⟨h1, h2, h3, h4⟩ := hin p hp
      rw [Finset.mem_product, Finset.mem_range, Finset.mem_range]
      exact ⟨gridIdx_lt_gridDim hr h1 h2, gridIdx_lt_gridDim hr h3 h4⟩
    · intro p hp q hq he
      have hp' : p ∈ st.pts := by simpa using hp
      have hq' : q ∈ st.pts := by simpa using hq
      have h1 := hfile p hp'
      have h2 := hfile q hq'
      rw [he] at h1
      rw [h1] at h2
      exact Option.some.inj h2
  rw [hcard] at hle
  rwa [Finset.card_product, Finset.card_range, Finset.card_range] at hle

/-- Termination measure of the `while` loop: it strictly decreases on every
iteration because a pop removes one active point and every acceptance both
fills a fresh grid cell and adds one active point. -/
def pMeasure (w h r : ℚ) (st : PoissonState) : ℕ :=
  2 * (gridDim w r * gridDim h r - st.pts.length) + st.act.length

lemma tryCand_measure {w h r : ℚ} (hr : 0 < r) {st : PoissonState} {c : Pt}
    (hI : PInv w h r st) :
    pMeasure w h r (tryCand w h r (gridDim w r) (gridDim h r) st c) ≤ pMeasure w h r st ∧
    PInv w h r (tryCand w h r (gridDim w r) (gridDim h r) st c) := by
  refine ⟨?_, tryCand_inv hr hI⟩
  rw [tryCand]
  by_cases hcond : (insideB w h c && neighborsOk st.grid (gridDim w r) (gridDim h r) r c) = true
  · rw [if_pos hcond]
    have hI' := tryCand_inv hr (c := c) hI
    rw [tryCand, if_pos hcond] at hI'
    have hlen : st.pts.length + 1 ≤ gridDim w r * gridDim h r := by
      have := pts_length_le hr hI'
      simpa using this
    rw [pMeasure, pMeasure]
    simp only [List.length_append, List.length_singleton]
    omega
  · rw [if_neg hcond]

lemma stepFrom_measure {w h r : ℚ} (hr : 0 < r) {p : Pt} (offs : List Pt)
    {st : PoissonState} (hI : PInv w h r st) :
    pMeasure w h r (stepFrom w h r (gridDim w r) (gridDim h r) st p offs) ≤ pMeasure w h r st ∧
    PInv w h r (stepFrom w h r (gridDim w r) (gridDim h r) st p offs) := by
  induction offs generalizing st with
  | nil => exact ⟨le_refl _, hI⟩
  | cons o rest ih =>
    rw [stepFrom, List.foldl_cons]
    obtain ⟨hm, hI'⟩ := tryCand_measure hr (c := (p.1 + o.1, p.2 + o.2)) hI
    obtain ⟨hm', hI''⟩ := ih hI'
    exact ⟨le_trans hm' hm, hI''⟩

lemma popStep_measure {w h r : ℚ} (hr : 0 < r) {st : PoissonState} (pi : ℕ) (offs : List Pt)
    (hI : PInv w h r st) (hne : st.act ≠ []) :
    pMeasure w h r (popStep w h r (gridDim w r) (gridDim h r) st pi offs) < pMeasure w h r st := by
  rw [popStep]
  have he : st.act.isEmpty = false := by
    cases hact : st.act with
    | nil => exact absurd hact hne
    | cons a rest => rfl
  rw [if_neg (by rw [he]; exact Bool.false_ne_true)]
  have hlen : 1 ≤ st.act.length := by
    cases hact : st.act with
    | nil => exact absurd hact hne
    | cons a rest => simp
  have hi : pi % st.act.length < st.act.length := Nat.mod_lt _ (by omega)
  have hIer : PInv w h r { st with act := st.act.eraseIdx (pi % st.act.length) } := by
    obtain ⟨hin, hfile, hgrid, hpair⟩ := hI
    exact ⟨hin, hfile, hgrid, hpair⟩
  obtain ⟨hm, _⟩ := stepFrom_measure hr
    (p := st.act.getD (pi % st.act.length) (0, 0)) offs hIer
  apply lt_of_le_of_lt hm
  rw [pMeasure, pMeasure]
  simp only
  have herase : (st.act.eraseIdx (pi % st.act.length)).length = st.act.length - 1 :=
    List.length_eraseIdx_of_lt hi
  rw [herase]
  omega

/-- With fuel at least the measure, the loop drains the active list. -/
lemma runPoisson_drains {w h r : ℚ} (hr : 0 < r) {oracle : ℕ → ℕ × List Pt}
    (fuel t : ℕ) {st : PoissonState} (hI : PInv w h r st)
    (hfuel : pMeasure w h r st ≤ fuel) :
    (runPoisson w h r oracle fuel t st).act = [] := by
  induction fuel generalizing t st with
  | zero =>
    rw [runPoisson]
    rw [pMeasure] at hfuel
    have : st.act.length = 0 := by omega
    exact List.length_eq_zero.1 this
  | succ fuel ih =>
    rw [runPoisson]
    by_cases he : st.act.isEmpty
    · rw [if_pos he]
      exact List.isEmpty_iff.1 he
    · rw [if_neg he]
      have hne : st.act ≠ [] := by
        intro hc
        rw [hc] at he
        exact he rfl
      have hlt := popStep_measure hr (oracle t).1 (oracle t).2 hI hne
      exact ih _ (popStep_inv hr hI) (by omega)

lemma initState_inv {w h r : ℚ} {p0 : Pt}
    (h0 : 0 ≤ p0.1 ∧ p0.1 < w ∧ 0 ≤ p0.2 ∧ p0.2 < h) : PInv w h r (initState r p0) := by
  refine ⟨?_, ?_, ?_, ?_⟩
  · intro p hp
    rw [initState] at hp
    simp only [List.mem_singleton] at hp
    subst hp
    exact h0
  · intro p hp
    rw [initState] at hp ⊢
    simp only [List.mem_singleton] at hp
    subst hp
    simp
  · intro z q hz
    rw [initState] at hz ⊢
    simp only at hz
    by_cases hze : z = cellOf r p0
    · rw [if_pos hze] at hz
      cases hz
      simp [hze]
    · rw [if_neg hze] at hz
      exact Option.noConfusion hz
  · rw [initState]
    exact List.pairwise_singleton _ _

/-- **C5.** For every Poisson-disc sampling run with `radius > 0` and the
seed point inside the positive boundary — whatever the random draws (pop
indices and candidate offsets) and however long the loop runs — every pair of
distinct accepted points has squared Euclidean distance at least `radius²`
(i.e. distance at least `radius`, with no floating error in this exact
model); moreover a candidate changes the state only if it lies inside the
boundary and the 5×5 acceleration-grid neighbourhood scan finds no accepted
point strictly closer than `radius`. -/
theorem poisson_pairwise_min_distance (w h r : ℚ) (p0 : Pt)
    (oracle : ℕ → ℕ × List Pt) (fuel : ℕ) (hr : 0 < r)
    (h0 : 0 ≤ p0.1 ∧ p0.1 < w ∧ 0 ≤ p0.2 ∧ p0.2 < h) :
    ((runPoisson w h r oracle fuel 0 (initState r p0)).pts.Pairwise
      (fun p q => r ^ 2 ≤ dist2 p q)) ∧
    (∀ st c, tryCand w h r (gridDim w r) (gridDim h r) st c ≠ st →
      insideB w h c = true ∧
      neighborsOk st.grid (gridDim w r) (gridDim h r) r c = true) := by
  constructor
  · exact (runPoisson_inv hr fuel 0 (initState_inv h0)).2.2.2
  · intro st c hne
    rw [tryCand] at hne
    by_cases hcond : (insideB w h c && neighborsOk st.grid (gridDim w r) (gridDim h r) r c) = true
    · rw [Bool.and_eq_true] at hcond
      exact hcond
    · rw [if_neg hcond] at hne
      exact absurd rfl hne

/-- Witness for `poisson_pairwise_min_distance` at a concrete input. -/
theorem poisson_pairwise_min_distance_witness :
    (0 < (1 : ℚ) ∧
      (0 ≤ ((0 : ℚ), (0 : ℚ)).1 ∧ ((0 : ℚ), (0 : ℚ)).1 < 1 ∧
       0 ≤ ((0 : ℚ), (0 : ℚ)).2 ∧ ((0 : ℚ), (0 : ℚ)).2 < 1)) ∧
    ((runPoisson 1 1 1 (fun _ => (0, [])) 2 0 (initState 1 ((0 : ℚ), (0 : ℚ)))).pts.Pairwise
      (fun p q => (1 : ℚ) ^ 2 ≤ dist2 p q)) :=
  ⟨⟨by norm_num, by norm_num⟩,
    (poisson_pairwise_min_distance 1 1 1 ((0 : ℚ), (0 : ℚ)) (fun _ => (0, [])) 2
      (by norm_num) (by norm_num)).1⟩

/-- **C9.** Poisson-disc sampling terminates unconditionally: for every
`radius > 0`, positive boundary, in-bounds seed and arbitrary random draws,
fuel `2·(gridDim w r · gridDim h r)` — twice the number of acceleration-grid
cells, which bounds the number of accepted points because distinct accepted
points occupy distinct cells — suffices for the `while process_list` loop to
reach the empty active list. -/
theorem poisson_terminates (w h r : ℚ) (p0 : Pt) (oracle : ℕ → ℕ × List Pt)
    (hr : 0 < r) (h0 : 0 ≤ p0.1 ∧ p0.1 < w ∧ 0 ≤ p0.2 ∧ p0.2 < h) :
    (runPoisson w h r oracle (2 * (gridDim w r * gridDim h r)) 0 (initState r p0)).act = [] := by
  apply runPoisson_drains hr _ _ (initState_inv h0)
  have hC : 1 ≤ gridDim w r * gridDim h r := by
    have h1 : 1 ≤ gridDim w r := by rw [gridDim]; omega
    have h2 : 1 ≤ gridDim h r := by rw [gridDim]; omega
    exact Nat.one_le_iff_ne_zero.2 (by positivity)
  rw [pMeasure, initState]
  simp only [List.length_singleton]
  omega

/-- Witness for `poisson_terminates` at a concrete input. -/
theorem poisson_terminates_witness :
    (0 < (1 : ℚ) ∧
      (0 ≤ ((0 : ℚ), (0 : ℚ)).1 ∧ ((0 : ℚ), (0 : ℚ)).1 < 1 ∧
       0 ≤ ((0 : ℚ), (0 : ℚ)).2 ∧ ((0 : ℚ), (0 : ℚ)).2 < 1)) ∧
    (runPoisson 1 1 1 (fun _ => (0, [])) (2 * (gridDim 1 1 * gridDim 1 1)) 0
      (initState 1 ((0 : ℚ), (0 : ℚ)))).act = [] :=
  ⟨⟨by norm_num, by norm_num⟩,
    poisson_terminates 1 1 1 ((0 : ℚ), (0 : ℚ)) (fun _ => (0, [])) (by norm_num) (by norm_num)⟩

/-! ### Lloyd relaxation (`_relax_points` of `jitter_grid_generator.py` and
`sunflower_generator.py`)

`scipy.spatial.Voronoi` is modelled at its interface: the record below holds
exactly the fields the source reads (`vertices`, `regions`, `point_region`,
`points`); region entries use the integer sentinel `-1` for an unbounded
direction, exactly as scipy does.  Out-of-range accesses, which cannot occur
on a well-formed scipy diagram, are totalised with `getD` defaults. -/

/-- The slice of a `scipy.spatial.Voronoi` result the generators read. -/
structure VorDiagram : Type where
  vertices : List Pt
  regions : List (List ℤ)
  point_region : List ℤ
  points : List Pt

/-- The region (list of vertex indices) assigned to input point `idx`. -/
def regionAt (d : VorDiagram) (idx : ℕ) : List ℤ :=
  d.regions.getD (d.point_region.getD idx (-1)).toNat []

/-- The condition of the source's `if`:
`region_idx != -1 and all(i != -1 for i in vor.regions[region_idx])`. -/
def regionClosed (d : VorDiagram) (idx : ℕ) : Prop :=
  d.point_region.getD idx (-1) ≠ -1 ∧ ∀ j ∈ regionAt d idx, j ≠ -1

instance (d : VorDiagram) (idx : ℕ) : Decidable (regionClosed d idx) := by
  rw [regionClosed]
  infer_instance

/-- The vertex ring `[vor.vertices[i] for i in region]`. -/
def regionVerts (d : VorDiagram) (idx : ℕ) : List Pt :=
  (regionAt d idx).map fun j => d.vertices.getD j.toNat (0, 0)

/-- `np.mean(polygon, axis=0)`: the arithmetic centroid of a vertex list. -/
def centroidQ (l : List Pt) : Pt :=
  ((l.map Prod.fst).sum / l.length, (l.map Prod.snd).sum / l.length)

/-- One iteration of the relaxation loop body: each point whose region index
is not `-1` and whose region mentions no `-1` vertex is replaced by the
arithmetic centroid of its region's vertex ring — with no clamping — and
every other point is kept (`vor.points[idx]`). -/
def relaxOnce (d : VorDiagram) : List Pt :=
  (List.range d.point_region.length).map fun idx =>
    if regionClosed d idx then centroidQ (regionVerts d idx)
    else d.points.getD idx (0, 0)

/-- `_relax_points`: `relaxation_steps` iterations, rebuilding the Voronoi
diagram from the current points each time.  `builder` is the abstract
`scipy.spatial.Voronoi` call. -/
def relaxLoop (builder : List Pt → VorDiagram) : ℕ → List Pt → List Pt
  | 0, pts => pts
  | n + 1, pts => relaxLoop builder n (relaxOnce (builder pts))

/-- The call site in `run_generation_process`:
`if self.relaxation_steps > 0: points = self._relax_points(points)`. -/
def pointsForVoronoi (builder : List Pt → VorDiagram) (steps : ℕ) (pts : List Pt) :
    List Pt :=
  if steps > 0 then relaxLoop builder steps pts else pts

/-- A concrete, exactly computed `scipy.spatial.Voronoi` output: the Voronoi
diagram of the four points `(5, 51/10), (1, 5), (9, 5), (5, 9)` (all inside
the boundary `[0,10] × [0,10]`).  The first point lies strictly inside the
convex hull of the other three, so its region is the bounded triangle of the
three circumcenters below; each of the three hull points has an unbounded
region.  The circumcenter of the near-collinear triple
`(5, 51/10), (1, 5), (9, 5)` is the far-away vertex `(5, -1499/20)`. -/
def farVertexDiagram : VorDiagram :=
  { vertices := [(5, -1499/20), (59/20, 141/20), (141/20, 141/20)]
    regions := [[0, 1, 2], [-1, 0, 1], [-1, 1, 2], [-1, 0, 2]]
    point_region := [0, 1, 3, 2]
    points := [(5, 51/10), (1, 5), (9, 5), (5, 9)] }

/-- Indexing `relaxOnce` below the length of `point_region`. -/
lemma relaxOnce_getD {d : VorDiagram} {idx : ℕ} (hidx : idx < d.point_region.length) :
    (relaxOnce d).getD idx (0, 0) =
      if regionClosed d idx then centroidQ (regionVerts d idx)
      else d.points.getD idx (0, 0) := by
  rw [relaxOnce, List.getD_eq_getElem?_getD, List.getElem?_map, List.getElem?_range hidx]
  rfl

lemma relaxOnce_length (d : VorDiagram) : (relaxOnce d).length = d.point_region.length := by
  rw [relaxOnce, List.length_map, List.length_range]

/-- **C3 (corrected claim).** In every Lloyd relaxation iteration, a point
whose region index is valid and whose region mentions no `-1` vertex is
replaced by the arithmetic centroid of the region's vertex ring with **no
clamping** — the source applies no `[0, width] × [0, height]` clamp, and the
centroid may lie outside the boundary (see
`relax_centroid_outside_boundary_cex`). -/
theorem relax_centroid_unclamped (d : VorDiagram) (idx : ℕ)
    (hidx : idx < d.point_region.length) (hcl : regionClosed d idx) :
    (relaxOnce d).getD idx (0, 0) = centroidQ (regionVerts d idx) := by
  rw [relaxOnce_getD hidx, if_pos hcl]

/-- Witness for `relax_centroid_unclamped` at the concrete diagram. -/
theorem relax_centroid_unclamped_witness :
    ((0 : ℕ) < farVertexDiagram.point_region.length ∧ regionClosed farVertexDiagram 0) ∧
    (relaxOnce farVertexDiagram).getD 0 (0, 0) = centroidQ (regionVerts farVertexDiagram 0) := by
  have h1 : (0 : ℕ) < farVertexDiagram.point_region.length := by
    rw [farVertexDiagram]
    norm_num
  have h2 : regionClosed farVertexDiagram 0 := by
    rw [regionClosed, regionAt, farVertexDiagram]
    norm_num
  exact ⟨⟨h1, h2⟩, relax_centroid_unclamped farVertexDiagram 0 h1 h2⟩

/-- **C3 (counterexample).** On the true Voronoi diagram of the four in-bounds
points `(5, 51/10), (1, 5), (9, 5), (5, 9)` (boundary `[0,10] × [0,10]`), the
relaxation iteration of the source replaces the first point — whose region is
bounded and non-degenerate — by the unclamped centroid `(5, -1217/60)`, whose
`y`-coordinate is negative, i.e. **not** clamped into `[0, height]` as the
claim states. -/
theorem relax_centroid_outside_boundary_cex :
    relaxOnce farVertexDiagram = [(5, -1217/60), (1, 5), (9, 5), (5, 9)] ∧
    (-1217/60 : ℚ) < 0 ∧
    (∀ p ∈ farVertexDiagram.points, 0 ≤ p.1 ∧ p.1 ≤ 10 ∧ 0 ≤ p.2 ∧ p.2 ≤ 10) := by
  refine ⟨?_, by norm_num, ?_⟩
  · rw [relaxOnce]
    have hlen : farVertexDiagram.point_region.length = 4 := rfl
    have hrange : List.range 4 = [0, 1, 2, 3] := rfl
    rw [hlen, hrange]
    simp only [List.map_cons, List.map_nil]
    rw [if_pos (by decide : regionClosed farVertexDiagram 0),
      if_neg (by decide : ¬ regionClosed farVertexDiagram 1),
      if_neg (by decide : ¬ regionClosed farVertexDiagram 2),
      if_neg (by decide : ¬ regionClosed farVertexDiagram 3)]
    have hverts : regionVerts farVertexDiagram 0 =
        [(5, -1499/20), (59/20, 141/20), (141/20, 141/20)] := rfl
    have hp1 : farVertexDiagram.points.getD 1 (0, 0) = (1, 5) := rfl
    have hp2 : farVertexDiagram.points.getD 2 (0, 0) = (9, 5) := rfl
    have hp3 : farVertexDiagram.points.getD 3 (0, 0) = (5, 9) := rfl
    rw [hverts, hp1, hp2, hp3]
    norm_num [centroidQ]
  · intro p hp
    rw [farVertexDiagram] at hp
    simp only [List.mem_cons, List.not_mem_nil, or_false] at hp
    rcases hp with h | h | h | h <;> subst h <;> norm_num

/-- **C8.** With `relaxation_steps = 0` the relaxation stage is the identity:
the point set handed to Voronoi construction is the synthesized point set
itself (the `if self.relaxation_steps > 0` guard skips `_relax_points`
entirely, and `_relax_points` with a zero count loops zero times), for every
builder and every input point set. -/
theorem relax_zero_steps_identity (builder : List Pt → VorDiagram) (pts : List Pt) :
    pointsForVoronoi builder 0 pts = pts ∧ relaxLoop builder 0 pts = pts := by
  constructor
  · rw [pointsForVoronoi]
    norm_num
  · rfl

/-- A degenerate builder used only to instantiate builder-quantified theorems
at a concrete value: every region is unbounded, so relaxation keeps every
point. -/
def constUnboundedBuilder : List Pt → VorDiagram :=
  fun q => { vertices := [], regions := [], point_region := q.map fun _ => -1, points := q }

/-- **C10.** Every Lloyd relaxation iteration preserves the cardinality and
the index order of the point set: for every Voronoi builder returning one
region index per input point, any number of iterations returns exactly as
many points as given, and the point at index `idx` of one iteration's output
is either the centroid of the region of input point `idx` or input point
`idx` unchanged. -/
theorem relax_preserves_count_and_order (builder : List Pt → VorDiagram)
    (hb : ∀ q, (builder q).point_region.length = q.length) :
    (∀ N pts, (relaxLoop builder N pts).length = pts.length) ∧
    (∀ d idx, idx < d.point_region.length →
      (relaxOnce d).getD idx (0, 0) = centroidQ (regionVerts d idx) ∨
      (relaxOnce d).getD idx (0, 0) = d.points.getD idx (0, 0)) := by
  constructor
  · intro N
    induction N with
    | zero => intro pts; rfl
    | succ n ih =>
      intro pts
      rw [relaxLoop, ih (relaxOnce (builder pts)), relaxOnce_length, hb]
  · intro d idx hidx
    rw [relaxOnce_getD hidx]
    by_cases hcl : regionClosed d idx
    · exact Or.inl (if_pos hcl)
    · exact Or.inr (if_neg hcl)

/-- Witness for `relax_preserves_count_and_order` at concrete inputs. -/
theorem relax_preserves_count_and_order_witness :
    (∀ q, (constUnboundedBuilder q).point_region.length = q.length) ∧
    (relaxLoop constUnboundedBuilder 1 [((0 : ℚ), (0 : ℚ)), (1, 1)]).length = 2 := by
  have hb : ∀ q, (constUnboundedBuilder q).point_region.length = q.length := by
    intro q
    rw [constUnboundedBuilder]
    simp
  refine ⟨hb, ?_⟩
  have := (relax_preserves_count_and_order constUnboundedBuilder hb).1 1
    [((0 : ℚ), (0 : ℚ)), (1, 1)]
  simpa using this

/-! ### CellShaper: gap scaling and boundary clipping
(`run_generation_process` of all three generators)

Polygons are ordered vertex lists.  `gdstk.boolean(p, rect, 'and')` — the
polygon-boolean intersection of a polygon with the boundary rectangle — is
modelled by Sutherland–Hodgman clipping against the four half-planes of the
rectangle, the textbook algorithm for intersecting a polygon with a convex
window; for a convex subject it returns the exact intersection.  `gdstk`
returns a list of result polygons (empty when the intersection is empty),
modelled by `clipRectPolys`. -/

/-- A polygon: ordered ring of vertices. -/
abbrev Pgon : Type := List Pt

/-- `(p - centroid) * scaling_factor + centroid`: scale a polygon about its
own vertex centroid, uniformly on both axes. -/
def scaleAbout (f : ℚ) (p : Pgon) : Pgon :=
  p.map fun v =>
    ((v.1 - (centroidQ p).1) * f + (centroidQ p).1,
     (v.2 - (centroidQ p).2) * f + (centroidQ p).2)

/-- The directed edge list of a polygon (consecutive pairs, wrapping). -/
def shEdges (p : Pgon) : List (Pt × Pt) :=
  match p with
  | [] => []
  | v :: vs => List.zip (v :: vs) (vs ++ [v])

/-- One Sutherland–Hodgman pass: clip a polygon against a half-plane with
membership test `ins` and edge/boundary intersection `inter`. -/
def clipHalf (ins : Pt → Bool) (inter : Pt → Pt → Pt) (p : Pgon) : Pgon :=
  (shEdges p).flatMap fun e =>
    if ins e.2 then (if ins e.1 then [e.2] else [inter e.1 e.2, e.2])
    else (if ins e.1 then [inter e.1 e.2] else [])

/-- Intersection of segment `s e` with the vertical line `x = a`. -/
def interX (a : ℚ) (s e : Pt) : Pt :=
  (a, s.2 + (a - s.1) / (e.1 - s.1) * (e.2 - s.2))

/-- Intersection of segment `s e` with the horizontal line `y = b`. -/
def interY (b : ℚ) (s e : Pt) : Pt :=
  (s.1 + (b - s.2) / (e.2 - s.2) * (e.1 - s.1), b)

/-- Clip a polygon against the rectangle `[0, w] × [0, h]`. -/
def clipRect (w h : ℚ) (p : Pgon) : Pgon :=
  clipHalf (fun v => decide (0 ≤ v.1)) (interX 0)
    (clipHalf (fun v => decide (v.1 ≤ w)) (interX w)
      (clipHalf (fun v => decide (0 ≤ v.2)) (interY 0)
        (clipHalf (fun v => decide (v.2 ≤ h)) (interY h) p)))

/-- The result-polygon list of `gdstk.boolean(p, rect, 'and')`: empty when
the intersection is empty (`if clipped_list:` in the source). -/
def clipRectPolys (w h : ℚ) (p : Pgon) : List Pgon :=
  if (clipRect w h p).isEmpty then [] else [clipRect w h p]

/-- The shaping stage as the source performs it: FIRST scale every raw
Voronoi polygon about its own centroid (`scaled_polygons` loop), THEN clip
each scaled polygon against the boundary rectangle (`clipped_polygons`
loop). -/
def codeShaper (f w h : ℚ) (polys : List Pgon) : List Pgon :=
  (polys.map (scaleAbout f)).flatMap (clipRectPolys w h)

/-- The shaping stage as the specification words it: first intersect every
region polygon against the boundary rectangle, then apply gap scaling about
each clipped polygon's own centroid.  Named definition for the refinement
comparison with `codeShaper`; it is NOT what the source does. -/
def specShaper (f w h : ℚ) (polys : List Pgon) : List Pgon :=
  (polys.flatMap (clipRectPolys w h)).map (scaleAbout f)

/-- The raw Voronoi region triangle used in the counterexamples: it sticks
out above the boundary square `[0,10] × [0,10]`. -/
def cexTriangle : Pgon := [(2, 2), (8, 2), (8, 14)]

/-- **C2 (counterexample).** The shaping stage is NOT clip-then-scale.  On the
raw region triangle `(2,2), (8,2), (8,14)` with boundary `[0,10] × [0,10]`
and scale factor `1/2`, the source's scale-then-clip order produces a
polygon containing a vertex at height `y = 10` (the whole scaled triangle,
untouched by clipping), whereas clip-then-scale — scaling each clipped
polygon about its own centroid, as the claim states — yields polygons whose
vertices all have `y ≤ 8`.  The two orders produce different polygon sets. -/
theorem shaper_scale_before_clip_cex :
    codeShaper (1/2) 10 10 [cexTriangle] ≠ specShaper (1/2) 10 10 [cexTriangle] ∧
    (∃ q ∈ (codeShaper (1/2) 10 10 [cexTriangle]).flatten, q.2 = 10) ∧
    (∀ q ∈ (specShaper (1/2) 10 10 [cexTriangle]).flatten, q.2 ≤ 8) := by
  have hcode : codeShaper (1/2) 10 10 [cexTriangle] = [[(7, 4), (7, 10), (4, 4)]] := by
    norm_num [codeShaper, cexTriangle, scaleAbout, centroidQ, clipRectPolys, clipRect,
      clipHalf, shEdges, interX, interY, List.zip, List.zipWith]
  have hspec : specShaper (1/2) 10 10 [cexTriangle] = [[(4, 4), (7, 4), (7, 8), (6, 8)]] := by
    norm_num [specShaper, cexTriangle, scaleAbout, centroidQ, clipRectPolys, clipRect,
      clipHalf, shEdges, interX, interY, List.zip, List.zipWith]
  refine ⟨?_, ?_, ?_⟩
  · rw [hcode, hspec]
    norm_num
  · rw [hcode]
    exact ⟨(7, 10), by norm_num, rfl⟩
  · rw [hspec]
    intro q hq
    simp only [List.flatten, List.append_nil, List.mem_cons, List.not_mem_nil, or_false] at hq
    rcases hq with h | h | h | h <;> subst h <;> norm_num

/-- **C2 (amended claim).** CellShaper applies scale-then-clip: the stage
equals, for every scale factor, boundary and polygon list, the per-polygon
composition "scale the raw polygon about its own centroid, then intersect
the scaled polygon with the boundary rectangle". -/
theorem shaper_is_scale_then_clip (f w h : ℚ) (polys : List Pgon) :
    codeShaper f w h polys =
      polys.flatMap fun p => clipRectPolys w h (scaleAbout f p) := by
  rw [codeShaper, List.flatMap_map]

/-! ### Output units (`run_generation_process`, DXF emission)

`mm_to_gds_unit = 1000 if output_unit == 'um' else 1`.  The source multiplies
only the clipping rectangle (and the text position) by this factor — the
polygon coordinates, which stay in millimetres, are clipped against the
scaled rectangle and then **divided** by the factor at write time
(`poly.points / self.mm_to_gds_unit`), while the boundary polyline `b_pts`
is written in raw millimetres. -/

/-- `1000 if output_unit == 'um' else 1`. -/
def unitFactor (u : String) : ℚ := if u = "um" then 1000 else 1

lemma unitFactor_mm : unitFactor "mm" = 1 := rfl

lemma unitFactor_um : unitFactor "um" = 1000 := rfl

/-- The boundary polyline written to the document — always raw millimetres,
whatever the configured unit. -/
def emittedBoundary (w h : ℚ) : Pgon := [(0, 0), (w, 0), (w, h), (0, h)]

/-- The pattern polygons written to the document for `cell_gap_mm = 0` (the
`else` branch, no scaling): each raw-mm polygon is clipped against the
rectangle `[0, w·unitFactor] × [0, h·unitFactor]` and the resulting
coordinates are divided by `unitFactor` at write time. -/
def emittedPattern (u : String) (w h : ℚ) (polys : List Pgon) : List Pgon :=
  (polys.flatMap (clipRectPolys (w * unitFactor u) (h * unitFactor u))).map
    fun p => p.map fun v => (v.1 / unitFactor u, v.2 / unitFactor u)

/-- The cell polygon of the C4 failing input (fully inside `[0,100]²`). -/
def c4cell : Pgon := [(10, 10), (20, 10), (20, 20), (10, 20)]

/-- **C4.** The claim fails on the code: with `output_unit = 'um'` there is NO
unit conversion `s` relating the emitted micrometre document to the emitted
millimetre document.  At boundary `100 × 100`, `gap = 0` and the single cell
`(10,10)–(20,20)`, the boundary polyline is emitted identically in both runs
(raw millimetres), but the pattern polygon is emitted divided by 1000 in the
micrometre run (having never been multiplied), so boundary and pattern are
in different units in the same document and no uniform factor `s` maps the
millimetre drawing to the micrometre drawing. -/
theorem um_output_inconsistent_units :
    emittedBoundary 100 100 = emittedBoundary 100 100 ∧
    ¬ ∃ s : ℚ,
      (emittedBoundary 100 100).map (fun v => (s * v.1, s * v.2)) = emittedBoundary 100 100 ∧
      emittedPattern "um" 100 100 [c4cell] =
        (emittedPattern "mm" 100 100 [c4cell]).map fun p =>
          p.map fun v => (s * v.1, s * v.2) := by
  refine ⟨rfl, ?_⟩
  rintro ⟨s, hb, hp⟩
  have hs : s = 1 := by
    rw [emittedBoundary] at hb
    simp only [List.map_cons, List.map_nil, List.cons.injEq, Prod.mk.injEq] at hb
    have h100 : s * 100 = 100 := hb.2.1.1
    linarith
  subst hs
  have hum : emittedPattern "um" 100 100 [c4cell] =
      [[(1/100, 1/100), (1/50, 1/100), (1/50, 1/50), (1/100, 1/50)]] := by
    norm_num [emittedPattern, unitFactor_um, c4cell, clipRectPolys, clipRect, clipHalf,
      shEdges, interX, interY, List.zip, List.zipWith]
  have hmm : emittedPattern "mm" 100 100 [c4cell] =
      [[(10, 10), (20, 10), (20, 20), (10, 20)]] := by
    norm_num [emittedPattern, unitFactor_mm, c4cell, clipRectPolys, clipRect, clipHalf,
      shEdges, interX, interY, List.zip, List.zipWith]
  rw [hum, hmm] at hp
  norm_num at hp

/-! ### Gap-scaling factor (sunflower and Poisson generators)

`avg_dist = np.sqrt((width*height)/num_points)` and
`scaling_factor = 1.0 - (cell_gap_mm / avg_dist)` — computed with real
square root, with no clamping of any kind. -/

/-- Characteristic cell dimension `np.sqrt((w·h)/num_points)`. -/
noncomputable def charDimSpiral (w h : ℚ) (n : ℕ) : ℝ :=
  Real.sqrt ((w : ℝ) * (h : ℝ) / (n : ℝ))

/-- `scaling_factor = 1.0 - (cell_gap_mm / avg_dist)`: the factor actually
applied by the source — there is no `max(0.1, ·)` floor. -/
noncomputable def scalingFactorSpiral (w h : ℚ) (n : ℕ) (gap : ℚ) : ℝ :=
  1 - (gap : ℝ) / charDimSpiral w h n

/-- **C1 (counterexample).** With boundary `100 × 100`, `num_points = 100`
and `gap_width = 10` (equal to the characteristic dimension `√(100·100/100)
= 10`), the scale factor computed by the source is `0`, strictly below the
`0.1` floor the claim asserts — so the factor is not
`max(0.1, 1 − gap/characteristic_dimension)` and polygons are collapsed. -/
theorem scaling_factor_no_floor_cex :
    scalingFactorSpiral 100 100 100 10 = 0 ∧
    scalingFactorSpiral 100 100 100 10 < 1/10 := by
  have hc : charDimSpiral 100 100 100 = 10 := by
    rw [charDimSpiral]
    rw [show ((100 : ℚ) : ℝ) * ((100 : ℚ) : ℝ) / ((100 : ℕ) : ℝ) = 10 ^ 2 by norm_num]
    exact Real.sqrt_sq (by norm_num)
  constructor
  · rw [scalingFactorSpiral, hc]
    norm_num
  · rw [scalingFactorSpiral, hc]
    norm_num

/-- **C1 (amended claim).** The gap-scaling factor of the spiral/disc
generators is `1 − gap/characteristic_dimension` with no floor: whenever the
characteristic dimension is positive, the factor drops below `0.1` exactly
when the requested gap exceeds `0.9` of the characteristic dimension (in
particular it reaches `0` and below for `gap ≥ characteristic_dimension`). -/
theorem scaling_factor_below_floor_iff (w h : ℚ) (n : ℕ) (gap : ℚ)
    (hc : 0 < charDimSpiral w h n) :
    scalingFactorSpiral w h n gap < 1/10 ↔
      9/10 * charDimSpiral w h n < (gap : ℝ) := by
  rw [scalingFactorSpiral]
  rw [show (1 : ℝ) - (gap : ℝ) / charDimSpiral w h n < 1/10 ↔
      (9 : ℝ)/10 < (gap : ℝ) / charDimSpiral w h n from by constructor <;> intro <;> linarith]
  rw [lt_div_iff₀ hc]

/-- Witness for `scaling_factor_below_floor_iff` at a concrete input. -/
theorem scaling_factor_below_floor_iff_witness :
    0 < charDimSpiral 100 100 100 ∧
    (scalingFactorSpiral 100 100 100 10 < 1/10 ↔
      9/10 * charDimSpiral 100 100 100 < ((10 : ℚ) : ℝ)) := by
  have hc : 0 < charDimSpiral 100 100 100 := by
    rw [charDimSpiral]
    apply Real.sqrt_pos.2
    norm_num
  exact ⟨hc, scaling_factor_below_floor_iff 100 100 100 10 hc⟩

/-! ### Empty point set behaviour (`run_generation_process` /
`_create_voronoi_polygons`)

`scipy.spatial.Voronoi` raises (qhull needs at least 4 input points in 2D;
an empty array raises even earlier), and no generator catches this: a Python
exception propagates out of `run_generation_process` before any document is
assembled.  The builder is modelled as returning `Except`: an `error` models
the raised exception. -/

/-- `_create_voronoi_polygons` after a successful Voronoi call: keep each
region that is non-empty and mentions no `-1`, as its vertex polygon. -/
def voronoiPolys (d : VorDiagram) : List Pgon :=
  d.regions.filterMap fun reg =>
    if reg ≠ [] ∧ ∀ j ∈ reg, j ≠ -1 then
      some (reg.map fun j => d.vertices.getD j.toNat (0, 0))
    else none

/-- The geometry pipeline of `run_generation_process` from the synthesized
point set to the emitted document (boundary polyline and shaped pattern
polygons), for a fallible Voronoi builder.  An exception in the builder
propagates: no document is produced. -/
def runPipeline (builder : List Pt → Except String VorDiagram) (f w h : ℚ)
    (pts : List Pt) : Except String (Pgon × List Pgon) := do
  let d ← builder pts
  pure (emittedBoundary w h, codeShaper f w h (voronoiPolys d))

/-- Modelled from the documented behaviour of `scipy.spatial.Voronoi`: the
call raises for fewer than 4 input points (2D qhull needs `nd + 2` points;
an empty input raises a `ValueError` even earlier).  The diagram returned on
the non-raising branch is irrelevant to the theorems below, which only
evaluate this model on inputs where it raises; it is a placeholder, not a
model of Voronoi construction. -/
def scipyFewPointsModel : List Pt → Except String VorDiagram := fun pts =>
  if pts.length < 4 then Except.error "qhull needs at least 4 points"
  else Except.ok { vertices := [], regions := [], point_region := [], points := pts }

/-- **C7 (amended claim).** If the synthesis stage produces zero points, the
pipeline does NOT run to completion: the Voronoi builder's exception
propagates out of the run, and no document — not even a boundary-only
document — is emitted.  Proved for every builder that fails on the empty
point set, every scale factor and every boundary. -/
theorem empty_points_pipeline_fails (builder : List Pt → Except String VorDiagram)
    (f w h : ℚ) (msg : String) (hfail : builder [] = Except.error msg) :
    runPipeline builder f w h [] = Except.error msg := by
  rw [runPipeline, hfail]
  rfl

/-- Witness for `empty_points_pipeline_fails` at the concrete scipy model. -/
theorem empty_points_pipeline_fails_witness :
    scipyFewPointsModel [] = Except.error "qhull needs at least 4 points" ∧
    runPipeline scipyFewPointsModel (1/2) 10 10 [] =
      Except.error "qhull needs at least 4 points" :=
  ⟨rfl, empty_points_pipeline_fails scipyFewPointsModel (1/2) 10 10 _ rfl⟩

/-- **C7 (counterexample).** The claim — that on an empty point set the run
completes and emits a boundary-only document — is false at the concrete
model of scipy's behaviour: the pipeline result is an error, not a document
of any shape. -/
theorem empty_points_no_document_cex :
    runPipeline scipyFewPointsModel (1/2) 10 10 [] =
      Except.error "qhull needs at least 4 points" ∧
    runPipeline scipyFewPointsModel (1/2) 10 10 [] ≠
      Except.ok (emittedBoundary 10 10, []) := by
  constructor
  · rfl
  · intro hc
    rw [show runPipeline scipyFewPointsModel (1/2) 10 10 [] =
        Except.error "qhull needs at least 4 points" from rfl] at hc
    exact Except.noConfusion hc

/-! ### Sunflower synthesis (`_generate_sunflower_points`,
`sunflower_generator.py`)

The source generates exactly `num_points` spiral candidates (indices
`0 … num_points - 1`) and keeps those inside the closed boundary; there is no
further candidate generation and no subsampling. -/

/-- `phi = (1 + np.sqrt(5)) / 2`. -/
noncomputable def sunPhi : ℝ := (1 + Real.sqrt 5) / 2

/-- The spiral candidate of index `i`:
`r = c·√i`, `theta = 2π·i/φ`, positioned about the boundary centre. -/
noncomputable def sunflowerCand (c cx cy : ℝ) (i : ℕ) : ℝ × ℝ :=
  (cx + c * Real.sqrt i * Real.cos (2 * Real.pi * i / sunPhi),
   cy + c * Real.sqrt i * Real.sin (2 * Real.pi * i / sunPhi))

open scoped Classical in
/-- `_generate_sunflower_points` with `jitter_strength = 0`: the candidates
at indices `0 … n-1` whose coordinates satisfy
`0 <= x <= width and 0 <= y <= height`. -/
noncomputable def sunflowerPts (n : ℕ) (c w h : ℝ) : List (ℝ × ℝ) :=
  ((List.range n).filter fun i =>
    decide (0 ≤ (sunflowerCand c (w/2) (h/2) i).1 ∧ (sunflowerCand c (w/2) (h/2) i).1 ≤ w ∧
            0 ≤ (sunflowerCand c (w/2) (h/2) i).2 ∧ (sunflowerCand c (w/2) (h/2) i).2 ≤ h)).map
    (sunflowerCand c (w/2) (h/2))

/-- The spiral angle of index 47 reduces modulo `2π` to
`δ = π·(47·√5 − 105) ∈ (0, 0.3)`. -/
lemma sunflower47_angle :
    2 * Real.pi * (47 : ℕ) / sunPhi =
      Real.pi * (47 * Real.sqrt 5 - 105) + (29 : ℤ) * (2 * Real.pi) := by
  have h5 : Real.sqrt 5 ^ 2 = 5 := Real.sq_sqrt (by norm_num)
  have h5pos : 0 < Real.sqrt 5 := Real.sqrt_pos.2 (by norm_num)
  have hne : (1 : ℝ) + Real.sqrt 5 ≠ 0 := by positivity
  rw [sunPhi]
  push_cast
  field_simp
  ring_nf
  nlinarith [h5, Real.pi_pos, sq_nonneg (Real.sqrt 5), Real.pi_gt_d6]

/-- Bounds on the reduced spiral angle of index 47. -/
lemma sunflower47_delta_bounds :
    0 < Real.pi * (47 * Real.sqrt 5 - 105) ∧
    Real.pi * (47 * Real.sqrt 5 - 105) < 3/10 := by
  have hlo : (2236067 : ℝ)/1000000 < Real.sqrt 5 := by
    rw [Real.lt_sqrt (by norm_num)]
    norm_num
  have hhi : Real.sqrt 5 < (2236068 : ℝ)/1000000 := by
    rw [Real.sqrt_lt' (by norm_num)]
    norm_num
  have hpi_lo : (3141592 : ℝ)/1000000 < Real.pi := by
    have := Real.pi_gt_d6
    linarith [this]
  have hpi_hi : Real.pi < (3141593 : ℝ)/1000000 := by
    have := Real.pi_lt_d6
    linarith [this]
  constructor
  · have h1 : (0 : ℝ) < 47 * Real.sqrt 5 - 105 := by nlinarith
    nlinarith [Real.pi_pos]
  · have h1 : 47 * Real.sqrt 5 - 105 < 47 * ((2236068 : ℝ)/1000000) - 105 := by nlinarith
    have h2 : (0 : ℝ) < 47 * Real.sqrt 5 - 105 := by nlinarith
    nlinarith

/-- The spiral candidate of index 47 in Scenario C lands beyond the right
boundary edge: its `x`-coordinate exceeds 50. -/
lemma sunflower47_outside :
    (50 : ℝ) < (sunflowerCand 4 (50/2) (50/2) 47).1 := by
  rw [sunflowerCand]
  have hcos : Real.cos (2 * Real.pi * (47 : ℕ) / sunPhi) =
      Real.cos (Real.pi * (47 * Real.sqrt 5 - 105)) := by
    rw [sunflower47_angle, Real.cos_add_int_mul_two_pi]
  obtain ⟨hd0, hd3⟩ := sunflower47_delta_bounds
  have hcosge : (955 : ℝ)/1000 ≤ Real.cos (Real.pi * (47 * Real.sqrt 5 - 105)) := by
    have := Real.one_sub_sq_div_two_le_cos (x := Real.pi * (47 * Real.sqrt 5 - 105))
    nlinarith
  have h47 : (68 : ℝ)/10 < Real.sqrt 47 := by
    rw [Real.lt_sqrt (by norm_num)]
    norm_num
  have h47nn : (0 : ℝ) ≤ Real.sqrt 47 := Real.sqrt_nonneg _
  have hsqrtcast : Real.sqrt ((47 : ℕ) : ℝ) = Real.sqrt 47 := by norm_num
  rw [hcos, hsqrtcast]
  nlinarith [mul_le_mul_of_nonneg_left hcosge (by linarith : (0 : ℝ) ≤ 4 * Real.sqrt 47),
    mul_lt_mul_of_pos_right h47 (by norm_num : (0 : ℝ) < 4 * (955/1000))]

/-- In Scenario C at most 49 of the 50 spiral candidates survive the
boundary filter, because index 47 is rejected. -/
lemma sunflower_scenarioC_le_49 : (sunflowerPts 50 4 50 50).length ≤ 49 := by
  rw [sunflowerPts, List.length_map]
  have h47 : (decide (0 ≤ (sunflowerCand 4 (50/2) (50/2) 47).1 ∧
      (sunflowerCand 4 (50/2) (50/2) 47).1 ≤ 50 ∧
      0 ≤ (sunflowerCand 4 (50/2) (50/2) 47).2 ∧
      (sunflowerCand 4 (50/2) (50/2) 47).2 ≤ 50)) = false := by
    apply decide_eq_false
    intro hP
    exact absurd hP.2.1 (not_le.2 sunflower47_outside)
  have h48 : List.range 48 = List.range 47 ++ [47] := by
    rw [show (48 : ℕ) = 47 + 1 from rfl, List.range_succ]
  have h49 : List.range 49 = List.range 48 ++ [48] := by
    rw [show (49 : ℕ) = 48 + 1 from rfl, List.range_succ]
  have h50 : List.range 50 = List.range 49 ++ [49] := by
    rw [show (50 : ℕ) = 49 + 1 from rfl, List.range_succ]
  rw [h50, h49, h48, List.filter_append, List.filter_append, List.filter_append,
    List.length_append, List.length_append, List.length_append]
  have hmid : (List.filter (fun i =>
      decide (0 ≤ (sunflowerCand 4 (50/2) (50/2) i).1 ∧
        (sunflowerCand 4 (50/2) (50/2) i).1 ≤ 50 ∧
        0 ≤ (sunflowerCand 4 (50/2) (50/2) i).2 ∧
        (sunflowerCand 4 (50/2) (50/2) i).2 ≤ 50)) [47]).length = 0 := by
    rw [List.filter_cons, if_neg (by rw [h47]; exact Bool.false_ne_true)]
    rfl
  have hb1 := List.length_filter_le (fun i =>
      decide (0 ≤ (sunflowerCand 4 (50/2) (50/2) i).1 ∧
        (sunflowerCand 4 (50/2) (50/2) i).1 ≤ 50 ∧
        0 ≤ (sunflowerCand 4 (50/2) (50/2) i).2 ∧
        (sunflowerCand 4 (50/2) (50/2) i).2 ≤ 50)) (List.range 47)
  have hb2 := List.length_filter_le (fun i =>
      decide (0 ≤ (sunflowerCand 4 (50/2) (50/2) i).1 ∧
        (sunflowerCand 4 (50/2) (50/2) i).1 ≤ 50 ∧
        0 ≤ (sunflowerCand 4 (50/2) (50/2) i).2 ∧
        (sunflowerCand 4 (50/2) (50/2) i).2 ≤ 50)) [48]
  have hb3 := List.length_filter_le (fun i =>
      decide (0 ≤ (sunflowerCand 4 (50/2) (50/2) i).1 ∧
        (sunflowerCand 4 (50/2) (50/2) i).1 ≤ 50 ∧
        0 ≤ (sunflowerCand 4 (50/2) (50/2) i).2 ∧
        (sunflowerCand 4 (50/2) (50/2) i).2 ≤ 50)) [49]
  rw [List.length_range] at hb1
  simp only [List.length_singleton] at hb2 hb3
  omega

/-- **C6 (counterexample).** For Scenario C — boundary `50 × 50`,
`target_point_count = 50`, `spiral_constant = 4.0`, `jitter = 0` — the
synthesized point set does NOT contain exactly 50 points: the spiral
candidate of index 47 lands outside the boundary (its `x`-coordinate
exceeds 50), so at most 49 points survive the filter.  No subsampling path
exists in the source: it never generates more than `target_point_count`
candidates. -/
theorem sunflower_scenarioC_count_ne_50 : (sunflowerPts 50 4 50 50).length ≠ 50 := by
  have := sunflower_scenarioC_le_49
  omega

/-- **C6 (amended claim).** The sunflower synthesis generates exactly
`target_point_count` spiral candidates (one per index `0 … n−1`) and keeps
those landing inside the boundary, never more than the target (so no
subsampling is ever needed or performed); in Scenario C fewer than 50
survive, and every kept point lies inside the closed boundary square. -/
theorem sunflower_scenarioC_corrected :
    (sunflowerPts 50 4 50 50).length < 50 ∧
    (∀ p ∈ sunflowerPts 50 4 50 50, 0 ≤ p.1 ∧ p.1 ≤ 50 ∧ 0 ≤ p.2 ∧ p.2 ≤ 50) ∧
    (∀ (n : ℕ) (c w h : ℝ), (sunflowerPts n c w h).length ≤ n) := by
  refine ⟨by have := sunflower_scenarioC_le_49; omega, ?_, ?_⟩
  · intro p hp
    rw [sunflowerPts, List.mem_map] at hp
    obtain ⟨i, hi, hset⟩ := hp
    rw [List.mem_filter] at hi
    have hP := of_decide_eq_true hi.2
    rw [← hset]
    exact hP
  · intro n c w h
    rw [sunflowerPts, List.length_map]
    calc (List.filter _ (List.range n)).length ≤ (List.range n).length :=
          List.length_filter_le _ _
    _ = n := List.length_range n
